import Mathlib

/-!
Shallow embedding of `src/dxfeed-cxx-api/PriceLevelBook.hpp`.

Modelling conventions:
* C++ `double` prices are modelled as `Option ℚ`; `none` stands for the
  quiet-NaN sentinel (`std::isnan(price)` becomes `price = none`).
* Order sizes are modelled as `Option ℚ` on raw events (a `none` size is the
  NaN size that classifies an event as a removal); sizes stored in price
  levels and in the order ledger are plain `ℚ` (the code only stores sizes
  of events that were not classified as removals, hence never NaN).
* `std::set` containers ordered by a comparator `lt` are modelled as lists
  kept in insertion-sorted order; `find`/`erase`/`count` use the comparator
  equivalence `¬ lt a b ∧ ¬ lt b a`, exactly as `std::set` does.
* Iterators into a `std::set` are modelled as indices into the sorted list,
  with `length` playing the role of the `end()` iterator.  Dereferencing the
  end iterator or incrementing it (`std::next(end)`) is undefined behaviour
  in C++; the corresponding model operations return `none` and the whole
  store operation is modelled as faulting (`Option.none`).
* `std::numeric_limits<double>::epsilon()` is `2 ^ (-52)`, modelled exactly.
-/

/-- Order side (`dxf_order_side_t`): buy, sell, or the undefined value. -/
inductive OSide
  | buy
  | sell
  | undefined
  deriving DecidableEq, Repr

/-- Ledger entry `OrderData` of the source: last known state of one order. -/
structure OrderData where
  index : Int
  price : Option ℚ
  size : ℚ
  time : Int
  side : OSide
  deriving DecidableEq, Repr

/-- One raw order record (`dxf_order_t` fields used by the book). -/
structure OrderEvent where
  index : Int
  price : Option ℚ
  size : Option ℚ
  time : Int
  side : OSide
  removeFlag : Bool
  deriving DecidableEq, Repr

/-- Source `PriceLevel`: price (`none` = NaN), aggregate size, time. -/
structure PL where
  price : Option ℚ
  size : ℚ
  time : Int
  deriving DecidableEq, Repr

/-- Source `PriceLevel::isValid`: literally `std::isnan(price)`. -/
def PL.isValid (pl : PL) : Bool :=
  pl.price.isNone

/-- The comparator of the base `PriceLevel` type (used for the per-batch
delta accumulation sets): if `b` is NaN return true, if `a` is NaN return
false, else compare prices ascending. -/
def baseLess (a b : PL) : Bool :=
  match b.price with
  | none => true
  | some pb =>
    match a.price with
    | none => false
    | some pa => decide (pa < pb)

/-- Source `AskPriceLevel::operator<`: same shape as the base
comparator, ascending by price with NaN ordered greatest. -/
def askLess (a b : PL) : Bool :=
  match b.price with
  | none => true
  | some pb =>
    match a.price with
    | none => false
    | some pa => decide (pa < pb)

/-- Source `BidPriceLevel::operator<`: if `b` is NaN return false, if
`a` is NaN return true, else compare prices descending. -/
def bidLess (a b : PL) : Bool :=
  match b.price with
  | none => false
  | some pb =>
    match a.price with
    | none => true
    | some pa => decide (pa > pb)

/-- The `std::set` key equivalence induced by a comparator. -/
def plEquivB (lt : PL → PL → Bool) (a b : PL) : Bool :=
  !lt a b && !lt b a

/-- Model of `std::set::find`: the first (unique) element equivalent to the key. -/
def setFind (lt : PL → PL → Bool) (s : List PL) (k : PL) : Option PL :=
  s.find? (fun x => plEquivB lt x k)

/-- Index form of `std::set::find` (the iterator position of the element). -/
def setFindIdx (lt : PL → PL → Bool) (s : List PL) (k : PL) : Option Nat :=
  s.findIdx? (fun x => plEquivB lt x k)

/-- Model of `std::set::insert`: inserted at the ordered position, a no-op when an
equivalent element is already present. -/
def setInsert (lt : PL → PL → Bool) (v : PL) : List PL → List PL
  | [] => [v]
  | x :: xs =>
    if lt v x then v :: x :: xs
    else if lt x v then x :: setInsert lt v xs
    else x :: xs

/-- Model of `std::set::erase(key)`: removes the element equivalent to the key. -/
def setErase (lt : PL → PL → Bool) (k : PL) (s : List PL) : List PL :=
  s.eraseP (fun x => plEquivB lt x k)

/-- Lookup in the `orderDataSnapshot_` unordered map. -/
def ledgerFind (L : List (Int × OrderData)) (i : Int) : Option OrderData :=
  (L.find? (fun p => p.1 == i)).map (fun p => p.2)

/-- Erase a key from the order ledger map. -/
def ledgerErase (L : List (Int × OrderData)) (i : Int) : List (Int × OrderData) :=
  L.eraseP (fun p => p.1 == i)

/-- Map assignment `orderDataSnapshot_[i] = d` (insert or overwrite). -/
def ledgerInsert (L : List (Int × OrderData)) (i : Int) (d : OrderData) :
    List (Int × OrderData) :=
  (i, d) :: ledgerErase L i

/-- The value `std::numeric_limits<double>::epsilon()` is `2 ^ (-52)`. -/
def epsD : ℚ :=
  1 / 2 ^ 52

/-- Source `PriceLevelBook::isZeroPriceLevel`: `|size| < epsilon`. -/
def isZeroPriceLevel (pl : PL) : Bool :=
  decide (|pl.size| < epsD)

/-- The `isOrderRemoval` lambda: remove flag set, or size zero, or size NaN. -/
def isOrderRemoval (o : OrderEvent) : Bool :=
  o.removeFlag || o.size == some 0 || o.size == none

/-- The numeric size of an event; only consulted on paths where the source
has already established the size is not NaN. -/
def sizeVal (o : OrderEvent) : ℚ :=
  o.size.getD 0

/-- The `processOrderAddition` lambda acting on one per-batch delta set: merge
the event's size into the entry at the event's price and (re)insert it
unconditionally. -/
def processOrderAddition (o : OrderEvent) (m : List PL) : List PL :=
  let plc : PL := ⟨o.price, sizeVal o, o.time⟩
  match setFind baseLess m plc with
  | some f => setInsert baseLess ⟨plc.price, f.size + plc.size, plc.time⟩ (setErase baseLess plc m)
  | none => setInsert baseLess plc m

/-- The `processOrderRemoval` lambda acting on one per-batch delta set: merge the
negated prior size into the entry at the prior price, re-inserting only when
the merged entry is not epsilon-zero. -/
def processOrderRemoval (o : OrderEvent) (d : OrderData) (m : List PL) : List PL :=
  let plc : PL := ⟨d.price, -d.size, o.time⟩
  match setFind baseLess m plc with
  | some f =>
    let merged : PL := ⟨plc.price, f.size + plc.size, plc.time⟩
    let m2 := setErase baseLess plc m
    if isZeroPriceLevel merged then m2 else setInsert baseLess merged m2
  | none =>
    if isZeroPriceLevel plc then m else setInsert baseLess plc m

/-- One iteration of the event loop in `convertToUpdates`: classify the event
against the order ledger, route it to the bid or ask delta set, and update
the ledger. -/
def convertStep (st : List PL × List PL × List (Int × OrderData)) (o : OrderEvent) :
    List PL × List PL × List (Int × OrderData) :=
  let au := st.1
  let bu := st.2.1
  let L := st.2.2
  let removal := isOrderRemoval o
  match ledgerFind L o.index with
  | none =>
    if removal then (au, bu, L)
    else
      let m := if o.side = OSide.buy then (au, processOrderAddition o bu)
        else (processOrderAddition o au, bu)
      (m.1, m.2, ledgerInsert L o.index ⟨o.index, o.price, sizeVal o, o.time, o.side⟩)
  | some d =>
    if removal then
      let m := if d.side = OSide.buy then (au, processOrderRemoval o d bu)
        else (processOrderRemoval o d au, bu)
      (m.1, m.2, ledgerErase L d.index)
    else
      let m := if o.side ≠ d.side then
          (if d.side = OSide.buy then (au, processOrderRemoval o d bu)
           else (processOrderRemoval o d au, bu))
        else (au, bu)
      let m2 := if o.side = OSide.buy then (m.1, processOrderAddition o m.2)
        else (processOrderAddition o m.1, m.2)
      (m2.1, m2.2, ledgerInsert L d.index ⟨o.index, o.price, sizeVal o, o.time, o.side⟩)

/-- Source `PriceLevelBook::convertToUpdates`: fold the batch through `convertStep`;
the ask deltas are returned in ascending set order, the bid deltas reversed
(the source copies them through `rbegin()/rend()`). -/
def convertToUpdates (events : List OrderEvent) (L : List (Int × OrderData)) :
    (List PL × List PL) × List (Int × OrderData) :=
  let r := events.foldl convertStep ([], [], L)
  ((r.1, r.2.1.reverse), r.2.2)

/-- Side-specific change lists (asks and bids) as carried by the source's
`PriceLevelChanges` struct. -/
structure Changes where
  asks : List PL
  bids : List PL
  deriving DecidableEq, Repr

/-- The source's `PriceLevelChangesSet`: additions, updates, removals. -/
structure ChangesSet where
  additions : Changes
  updates : Changes
  removals : Changes
  deriving DecidableEq, Repr

/-- Source `PriceLevelBook::generatePriceLevelChanges`: classify one net delta
against the current level store, appending to exactly one of the three
lists (additions / removals / updates). -/
def generatePriceLevelChanges (lt : PL → PL → Bool) (upd : PL) (store : List PL)
    (acc : List PL × List PL × List PL) : List PL × List PL × List PL :=
  match setFind lt store upd with
  | none => (acc.1 ++ [upd], acc.2.1, acc.2.2)
  | some f =>
    let npc : PL := ⟨f.price, f.size + upd.size, upd.time⟩
    if isZeroPriceLevel npc then (acc.1, acc.2.1 ++ [f], acc.2.2)
    else (acc.1, acc.2.1, acc.2.2 ++ [npc])

/-- Phase one of `applyUpdates` for one side: classify every net delta
against the (still unmodified) store. Returns (additions, removals, updates). -/
def categorizeSide (lt : PL → PL → Bool) (store : List PL) (du : List PL) :
    List PL × List PL × List PL :=
  du.foldl (fun acc u => generatePriceLevelChanges lt u store acc) ([], [], [])

/-- One side's mutable store state: the ordered level container plus the
visibility cursor `lastElementIter` (an index; `store.length` is `end()`). -/
structure SideState where
  store : List PL
  last : Nat
  deriving DecidableEq, Repr

/-- Iterator dereference; `none` when the iterator is `end()` (or worse). -/
def derefIt (s : List PL) (i : Nat) : Option PL :=
  s[i]?

/-- Model of `std::next` on a set iterator; incrementing `end()` is UB, hence `none`. -/
def nextIt (s : List PL) (i : Nat) : Option Nat :=
  if i < s.length then some (i + 1) else none

/-- Model of `std::prev` on a set iterator; decrementing `begin()` is UB. -/
def prevIt (i : Nat) : Option Nat :=
  if 0 < i then some (i - 1) else none

/-- The default-constructed `PriceLevel{}`: NaN price (the cursor-at-end
sentinel). Its size is never examined by the cursor bookkeeping. -/
def defaultPL : PL :=
  ⟨none, 0, 0⟩

/-- The cursor relocation done at the end of each store operation, verbatim
from the source: `if (!newLastPL.isValid()) last = end else last = find(...)`.
Because `isValid()` returns `isnan(price)`, a real-priced snapshot value sends
the cursor to `end()` and a NaN one goes through `find`. -/
def relocateCursor (lt : PL → PL → Bool) (store : List PL) (newLast : PL) : Nat :=
  if newLast.price.isSome then store.length
  else (setFindIdx lt store newLast).getD store.length

/-- Source `PriceLevelBook::processSideRemoval`. Returns the new side state, the
removals change set and the additions change set, or `none` when the C++
would run into undefined behaviour (erasing `end()`, `std::next(end())`, or
dereferencing `end()`). -/
def processSideRemoval (lt : PL → PL → Bool) (rem : PL) (ss : SideState)
    (removals additions : List PL) (N : Nat) :
    Option (SideState × List PL × List PL) :=
  if ss.store.isEmpty then some (ss, removals, additions)
  else
    match setFind lt ss.store rem with
    | none => none
    | some _ =>
      if N = 0 then
        let store2 := setErase lt rem ss.store
        some (⟨store2, store2.length⟩, setInsert lt rem removals, additions)
      else do
        let removed ←
          if ss.store.length ≤ N then some true
          else do
            let nl ← nextIt ss.store ss.last
            let v ← derefIt ss.store nl
            some (lt rem v)
        let additions2 ←
          if removed && decide (N < ss.store.length) then do
            let nl ← nextIt ss.store ss.last
            let v ← derefIt ss.store nl
            some (setInsert lt v additions)
          else some additions
        let newLast ←
          if removed then do
            let nl ← nextIt ss.store ss.last
            if nl ≠ ss.store.length then derefIt ss.store nl
            else do
              let vlast ← derefIt ss.store ss.last
              if lt rem vlast then some vlast
              else if ss.last ≠ 0 then do
                let p ← prevIt ss.last
                derefIt ss.store p
              else some defaultPL
          else derefIt ss.store ss.last
        let store2 := setErase lt rem ss.store
        let removals2 := if removed then setInsert lt rem removals else removals
        some (⟨store2, relocateCursor lt store2 newLast⟩, removals2, additions2)

/-- Source `PriceLevelBook::processSideAddition`. Returns the new side state, the
additions change set and the removals change set, or `none` on UB (the
unconditional `*lastElementIter` read of line 326 faults when the cursor is
`end()`). -/
def processSideAddition (lt : PL → PL → Bool) (addn : PL) (ss : SideState)
    (additions removals : List PL) (N : Nat) :
    Option (SideState × List PL × List PL) :=
  if N = 0 then
    let store2 := setInsert lt addn ss.store
    some (⟨store2, store2.length⟩, setInsert lt addn additions, removals)
  else do
    let added ←
      if ss.store.length < N then some true
      else do
        let v ← derefIt ss.store ss.last
        some (lt addn v)
    let additions2 := if added then setInsert lt addn additions else additions
    let sets ←
      if added && decide (N ≤ ss.store.length) then do
        let toRemove ← derefIt ss.store ss.last
        if (setFind lt additions2 toRemove).isSome then
          some (setErase lt toRemove additions2, removals)
        else
          some (additions2, setInsert lt toRemove removals)
      else some (additions2, removals)
    let base ← derefIt ss.store ss.last
    let newLast ←
      if added then
        if lt addn base then
          if ss.store.length < N then some base
          else if ss.last ≠ 0 then do
            let p ← prevIt ss.last
            let vp ← derefIt ss.store p
            some (if lt addn vp then vp else addn)
          else some addn
        else some addn
      else some base
    let store2 := setInsert lt addn ss.store
    some (⟨store2, relocateCursor lt store2 newLast⟩, sets.1, sets.2)

/-- Source `PriceLevelBook::processSideUpdate`. The update path never dereferences
an unchecked iterator, so it is total. -/
def processSideUpdate (lt : PL → PL → Bool) (upd : PL) (ss : SideState)
    (updates : List PL) (N : Nat) : SideState × List PL :=
  if N = 0 then
    let store2 := setInsert lt upd (setErase lt upd ss.store)
    (⟨store2, store2.length⟩, setInsert lt upd updates)
  else
    let updates2 := if (setFind lt ss.store upd).isSome then setInsert lt upd updates else updates
    let newLast := (derefIt ss.store ss.last).getD defaultPL
    let store2 := setInsert lt upd (setErase lt upd ss.store)
    (⟨store2, relocateCursor lt store2 newLast⟩, updates2)

/-- The per-side body of `PriceLevelBook::applyUpdates`: phase-one
classification followed by the removals, additions and updates loops.
Returns the final side state and the (additions, updates, removals) sets. -/
def applySide (lt : PL → PL → Bool) (ss0 : SideState) (du : List PL) (N : Nat) :
    Option (SideState × List PL × List PL × List PL) := do
  let c := categorizeSide lt ss0.store du
  let r1 ← c.2.1.foldlM
    (fun (acc : SideState × List PL × List PL) r =>
      processSideRemoval lt r acc.1 acc.2.1 acc.2.2 N)
    (ss0, [], [])
  let r2 ← c.1.foldlM
    (fun (acc : SideState × List PL × List PL) a => do
      let t ← processSideAddition lt a acc.1 acc.2.2 acc.2.1 N
      some (t.1, t.2.2, t.2.1))
    r1
  let r3 := c.2.2.foldl
    (fun (acc : SideState × List PL) u =>
      processSideUpdate lt u acc.1 acc.2 N)
    (r2.1, [])
  some (r3.1, r2.2.2, r3.2, r2.2.1)

/-- The full book state guarded by the mutex: both stores with their cursors,
the order ledger, and the configured depth cap `levelsNumber_`. -/
structure Book where
  asks : List PL
  lastAsk : Nat
  bids : List PL
  lastBid : Nat
  ledger : List (Int × OrderData)
  cap : Nat
  deriving DecidableEq, Repr

/-- Source `PriceLevelBook::applyUpdates`: run both sides, collect the change-set. -/
def applyUpdates (b : Book) (du : Changes) : Option (Book × ChangesSet) := do
  let ra ← applySide askLess ⟨b.asks, b.lastAsk⟩ du.asks b.cap
  let rb ← applySide bidLess ⟨b.bids, b.lastBid⟩ du.bids b.cap
  some (⟨ra.1.store, ra.1.last, rb.1.store, rb.1.last, b.ledger, b.cap⟩,
    ⟨⟨ra.2.1, rb.2.1⟩, ⟨ra.2.2.1, rb.2.2.1⟩, ⟨ra.2.2.2, rb.2.2.2⟩⟩)

/-- Source `PriceLevelBook::getAsks`: the vector `{asks_.begin(), lastAsk_}`, i.e.
the levels strictly before the cursor position. -/
def getAsks (b : Book) : List PL :=
  b.asks.take b.lastAsk

/-- Source `PriceLevelBook::getBids`. -/
def getBids (b : Book) : List PL :=
  b.bids.take b.lastBid

/-- The observer callbacks, modelled as emitted values (all three handlers
are modelled as registered). -/
inductive CallbackEvent
  | onNewBook (levels : Changes)
  | onIncrementalChange (cs : ChangesSet)
  | onBookUpdate (levels : Changes)
  deriving DecidableEq, Repr

/-- The `newSnapshot` clearing step: both stores and the ledger are cleared.
The C++ keeps the (now necessarily `end()`-valued) iterators; the model pins
them to the `end()` of the emptied containers. -/
def clearBook (b : Book) : Book :=
  ⟨[], 0, [], 0, [], b.cap⟩

/-- Source `PriceLevelBook::processSnapshotData`: the full batch cycle — optional
clearing, the empty-batch early return, delta translation, application, and
the observer notifications. -/
def processSnapshotData (b : Book) (records : List OrderEvent) (newSnapshot : Bool) :
    Option (Book × List CallbackEvent) :=
  let b1 := if newSnapshot then clearBook b else b
  if records.isEmpty then
    some (b1, if newSnapshot then [CallbackEvent.onNewBook ⟨[], []⟩] else [])
  else do
    let cu := convertToUpdates records b1.ledger
    let b2 : Book := ⟨b1.asks, b1.lastAsk, b1.bids, b1.lastBid, cu.2, b1.cap⟩
    let r ← applyUpdates b2 ⟨cu.1.1, cu.1.2⟩
    let b3 := r.1
    if newSnapshot then
      some (b3, [CallbackEvent.onNewBook ⟨getAsks b3, getBids b3⟩])
    else
      some (b3, [CallbackEvent.onIncrementalChange r.2,
        CallbackEvent.onBookUpdate ⟨getAsks b3, getBids b3⟩])

/-- Spec-side definition, following the spec's words for comparison: the net
size contributed at a given price on a given side by the orders currently in
the ledger ("aggregate size: sum of contributing orders' sizes"). -/
def specNetSize (L : List (Int × OrderData)) (s : OSide) (p : ℚ) : ℚ :=
  (L.filter (fun e => e.2.side == s && e.2.price == some p)).foldl
    (fun a e => a + e.2.size) 0

/-- A change list mentions a (real) price. -/
def mentionsPrice (xs : List PL) (p : ℚ) : Prop :=
  ∃ x ∈ xs, x.price = some p

/-- The spec's change-set invariant for one side: no price occurs in more
than one of the three lists. -/
def sideDisjoint (adds upds rems : List PL) : Prop :=
  ∀ p : ℚ,
    ¬(mentionsPrice adds p ∧ mentionsPrice upds p) ∧
    ¬(mentionsPrice adds p ∧ mentionsPrice rems p) ∧
    ¬(mentionsPrice upds p ∧ mentionsPrice rems p)

instance mentionsPriceDecidable (xs : List PL) (p : ℚ) : Decidable (mentionsPrice xs p) :=
  List.decidableBEx _ xs

/-- Comparator soundness: set-equivalent levels carry the same price. -/
def priceSound (lt : PL → PL → Bool) : Prop :=
  ∀ a b : PL, plEquivB lt a b = true → a.price = b.price

/-- A level that is set-equivalent to some level is equivalent to itself
(both side comparators are irreflexive on such levels). -/
def selfEquivOfEquiv (lt : PL → PL → Bool) : Prop :=
  ∀ a b : PL, plEquivB lt a b = true → plEquivB lt a a = true


/-- Claim C1, counterexample: on the bid side the NaN sentinel does not sort
after a real-priced level. At price 10 the required pair of comparator
results (real < NaN, not NaN < real) fails: the code yields the opposite. -/
theorem claim_C1_counterexample :
    ¬(bidLess ⟨some 10, 1, 0⟩ ⟨none, 0, 0⟩ = true ∧
      bidLess ⟨none, 0, 0⟩ ⟨some 10, 1, 0⟩ = false) := by
  decide

/-- Claim C1 (amended): ask levels sort ascending by price and bid levels
descending by price; a NaN-priced level sorts after every real-priced level
on the ask side, but on the bid side it sorts before (better than) every
real-priced level. -/
theorem claim_C1_theorem :
    (∀ (pa pb sa sb : ℚ) (ta tb : Int),
      askLess ⟨some pa, sa, ta⟩ ⟨some pb, sb, tb⟩ = decide (pa < pb)) ∧
    (∀ (pa pb sa sb : ℚ) (ta tb : Int),
      bidLess ⟨some pa, sa, ta⟩ ⟨some pb, sb, tb⟩ = decide (pa > pb)) ∧
    (∀ (p s s2 : ℚ) (t t2 : Int),
      askLess ⟨some p, s, t⟩ ⟨none, s2, t2⟩ = true ∧
      askLess ⟨none, s2, t2⟩ ⟨some p, s, t⟩ = false) ∧
    (∀ (p s s2 : ℚ) (t t2 : Int),
      bidLess ⟨none, s2, t2⟩ ⟨some p, s, t⟩ = true ∧
      bidLess ⟨some p, s, t⟩ ⟨none, s2, t2⟩ = false) := by
  exact ⟨fun _ _ _ _ _ _ => rfl, fun _ _ _ _ _ _ => rfl,
    fun _ _ _ _ _ => ⟨rfl, rfl⟩, fun _ _ _ _ _ => ⟨rfl, rfl⟩⟩

/-- Claim C2: order 1 is in the ledger as (buy, price 10, size 4); a non-
removal event for the same order, same side, at the new price 11 yields ONLY
the addition delta at (bid, 11) — no removal delta at the old (bid, 10) is
produced — and the ledger is upserted to the new state. This contradicts the
claimed removal-plus-addition netting for same-side price changes. -/
theorem claim_C2_theorem :
    convertToUpdates [⟨1, some 11, some 4, 1, OSide.buy, false⟩]
        [(1, ⟨1, some 10, 4, 0, OSide.buy⟩)] =
      (([], [⟨some 11, 4, 1⟩]), [(1, ⟨1, some 11, 4, 1, OSide.buy⟩)]) := by
  decide

/-- Claim C3: a cap-1 update on a two-level store with the cursor on the
first level. The snapshotted cursor value (price 10, a real price, still
present at index 0 after the operation) should re-locate the cursor to that
level, but the inverted `isValid` sends the cursor to `end()` instead. -/
theorem claim_C3_theorem :
    (processSideUpdate askLess ⟨some 10, 7, 1⟩
        ⟨[⟨some 10, 5, 0⟩, ⟨some 11, 3, 0⟩], 0⟩ [] 1).1.last = 2 ∧
    setFindIdx askLess
        (processSideUpdate askLess ⟨some 10, 7, 1⟩
          ⟨[⟨some 10, 5, 0⟩, ⟨some 11, 3, 0⟩], 0⟩ [] 1).1.store
        ⟨some 10, 5, 0⟩ = some 0 := by
  decide

/-- Claim C4: with cap 1, the very first store addition dereferences the end
iterator (undefined behaviour, modelled as a fault), and a cap-1 update on a
two-level store with a valid cursor relocates the cursor to `end()`, making
the visible window contain 2 > 1 levels. -/
theorem claim_C4_theorem :
    processSideAddition askLess ⟨some 10, 5, 0⟩ ⟨[], 0⟩ [] [] 1 = none ∧
    ((processSideUpdate askLess ⟨some 10, 7, 1⟩
        ⟨[⟨some 10, 5, 0⟩, ⟨some 11, 3, 0⟩], 0⟩ [] 1).1.store.take
      (processSideUpdate askLess ⟨some 10, 7, 1⟩
        ⟨[⟨some 10, 5, 0⟩, ⟨some 11, 3, 0⟩], 0⟩ [] 1).1.last).length = 2 := by
  decide

/-- Claim C5: with cap 0, order 1 is added at (buy, 10, size 5) and then
modified to price 11 (same side, no removal flag). The visible bid book
keeps the stale level at price 10 even though the ledger's net size at
price 10 is 0 (order 1 now rests at 11), so the visible book is not the set
of non-zero net levels. -/
theorem claim_C5_theorem :
    Option.map (fun r =>
        (getBids r.1, specNetSize r.1.ledger OSide.buy 10, specNetSize r.1.ledger OSide.buy 11))
      ((processSnapshotData ⟨[], 0, [], 0, [], 0⟩
          [⟨1, some 10, some 5, 0, OSide.buy, false⟩] false).bind
        (fun r => processSnapshotData r.1
          [⟨1, some 11, some 5, 1, OSide.buy, false⟩] false))
    = some ([⟨some 11, 5, 1⟩, ⟨some 10, 5, 0⟩], 0, 5) := by
  with_unfolding_all decide

/-- Claim C6: with cap 0 and a book holding the level (bid 10, size 5) from
order 1, the batch [remove order 1, add order 2 at (buy, 10, size 5)] nets
to the single zero delta at (bid, 10), yet processing it emits a non-empty
change-set (a bid update at price 10) and rewrites the stored level's
timestamp, instead of the claimed empty change-set and unchanged state. -/
theorem claim_C6_theorem :
    (convertToUpdates
        [⟨1, some 10, some 5, 2, OSide.buy, true⟩, ⟨2, some 10, some 5, 2, OSide.buy, false⟩]
        [(1, ⟨1, some 10, 5, 0, OSide.buy⟩)]).1
      = ([], [⟨some 10, 0, 2⟩]) ∧
    Option.map (fun r => (r.1.bids, r.2))
      ((processSnapshotData ⟨[], 0, [], 0, [], 0⟩
          [⟨1, some 10, some 5, 0, OSide.buy, false⟩] false).bind
        (fun r => processSnapshotData r.1
          [⟨1, some 10, some 5, 2, OSide.buy, true⟩, ⟨2, some 10, some 5, 2, OSide.buy, false⟩]
          false))
    = some ([⟨some 10, 5, 2⟩],
        [CallbackEvent.onIncrementalChange ⟨⟨[], []⟩, ⟨[], [⟨some 10, 5, 2⟩]⟩, ⟨[], []⟩⟩,
         CallbackEvent.onBookUpdate ⟨[], [⟨some 10, 5, 2⟩]⟩]) := by
  with_unfolding_all decide

/-- Claim C7, counterexample: a cap-2 cycle on the ask store (10, 11) with
the cursor on 11, given an addition delta at 9 and an update delta at 11.
The addition evicts 11 (reported as a removal) while the update delta also
reports 11 as an update, so the price 11 occurs in two change lists of one
cycle on one side. -/
theorem claim_C7_counterexample :
    Option.map (fun r => (r.2.additions.asks, r.2.updates.asks, r.2.removals.asks))
      (applyUpdates ⟨[⟨some 10, 5, 0⟩, ⟨some 11, 3, 0⟩], 1, [], 0, [], 2⟩
        ⟨[⟨some 9, 2, 1⟩, ⟨some 11, 4, 1⟩], []⟩)
      = some ([⟨some 9, 2, 1⟩], [⟨some 11, 7, 1⟩], [⟨some 11, 3, 0⟩]) ∧
    ¬ sideDisjoint [⟨some 9, 2, 1⟩] [⟨some 11, 7, 1⟩] [⟨some 11, 3, 0⟩] := by
  refine ⟨by with_unfolding_all decide, fun h => (h 11).2.2 ⟨by decide, by decide⟩⟩

/-- Claim C10: a batch with zero records and the new-snapshot flag clear
invokes no observer callback and leaves the whole book state unchanged. -/
theorem claim_C10_theorem (b : Book) : processSnapshotData b [] false = some (b, []) :=
  rfl

/-- Claim C8: for an event whose order id is in the ledger, that is not a
removal, and whose side flips between the bid book and the ask book, the
translator emits the removal delta of the prior size at the prior (side,
price) and the addition delta of the new size at the new (side, price) —
also when the two numeric prices coincide — and upserts the ledger entry. -/
theorem claim_C8_theorem (L : List (Int × OrderData)) (e : OrderEvent) (d : OrderData)
    (hfind : ledgerFind L e.index = some d)
    (hrem : isOrderRemoval e = false)
    (hkey : (e.side = OSide.buy ∧ d.side ≠ OSide.buy) ∨ (e.side ≠ OSide.buy ∧ d.side = OSide.buy))
    (hsz : epsD ≤ |d.size|) :
    convertStep ([], [], L) e =
      if e.side = OSide.buy then
        ([⟨d.price, -d.size, e.time⟩], [⟨e.price, sizeVal e, e.time⟩],
          ledgerInsert L d.index ⟨e.index, e.price, sizeVal e, e.time, e.side⟩)
      else
        ([⟨e.price, sizeVal e, e.time⟩], [⟨d.price, -d.size, e.time⟩],
          ledgerInsert L d.index ⟨e.index, e.price, sizeVal e, e.time, e.side⟩) := by
  have hz : isZeroPriceLevel ⟨d.price, -d.size, e.time⟩ = false := by
    simp only [isZeroPriceLevel, abs_neg, decide_eq_false_iff_not, not_lt]
    exact hsz
  have hside : e.side ≠ d.side := by
    rcases hkey with ⟨h1, h2⟩ | ⟨h1, h2⟩
    · exact fun hh => h2 (hh ▸ h1)
    · exact fun hh => h1 (hh.symm ▸ h2)
  rcases hkey with ⟨h1, h2⟩ | ⟨h1, h2⟩
  · simp [convertStep, hfind, hrem, hside, h1, h2, Ne.symm h2, processOrderRemoval,
      processOrderAddition, setFind, setInsert, hz]
  · simp [convertStep, hfind, hrem, hside, h1, h2, Ne.symm h1, processOrderRemoval,
      processOrderAddition, setFind, setInsert, hz]

/-- Witness for claim C8: ledger holds order 5 as (buy, 10, size 4); a
non-removal event flips it to (sell, 10, size 4); both the bid removal of
size 4 at 10 and the ask addition of size 4 at 10 are emitted. -/
theorem claim_C8_witness :
    (ledgerFind [(5, ⟨5, some 10, 4, 0, OSide.buy⟩)] (5 : Int) = some ⟨5, some 10, 4, 0, OSide.buy⟩ ∧
      isOrderRemoval ⟨5, some 10, some 4, 1, OSide.sell, false⟩ = false ∧
      epsD ≤ |(4 : ℚ)|) ∧
    convertStep ([], [], [(5, ⟨5, some 10, 4, 0, OSide.buy⟩)]) ⟨5, some 10, some 4, 1, OSide.sell, false⟩ =
      ([⟨some 10, 4, 1⟩], [⟨some 10, -4, 1⟩],
        [(5, ⟨5, some 10, 4, 1, OSide.sell⟩)]) := by
  refine ⟨⟨by decide, by decide, by with_unfolding_all decide⟩, ?_⟩
  have h := claim_C8_theorem [(5, ⟨5, some 10, 4, 0, OSide.buy⟩)]
    ⟨5, some 10, some 4, 1, OSide.sell, false⟩ ⟨5, some 10, 4, 0, OSide.buy⟩
    (by decide) (by decide) (by decide) (by with_unfolding_all decide)
  exact h.trans (by with_unfolding_all decide)

/-- Claim C9: an event with the undefined side is routed to the ask delta
set by both the addition path and the removal path; the bid delta set is
never touched. -/
theorem claim_C9_theorem (au bu : List PL) (L : List (Int × OrderData))
    (i : Int) (p sz : Option ℚ) (t : Int) (fl : Bool)
    (hd : ∀ d, ledgerFind L i = some d → d.side = OSide.undefined) :
    (convertStep (au, bu, L) ⟨i, p, sz, t, OSide.undefined, fl⟩).2.1 = bu ∧
    (ledgerFind L i = none → isOrderRemoval ⟨i, p, sz, t, OSide.undefined, fl⟩ = false →
      (convertStep (au, bu, L) ⟨i, p, sz, t, OSide.undefined, fl⟩).1 =
        processOrderAddition ⟨i, p, sz, t, OSide.undefined, fl⟩ au) ∧
    (∀ d, ledgerFind L i = some d → isOrderRemoval ⟨i, p, sz, t, OSide.undefined, fl⟩ = true →
      (convertStep (au, bu, L) ⟨i, p, sz, t, OSide.undefined, fl⟩).1 =
        processOrderRemoval ⟨i, p, sz, t, OSide.undefined, fl⟩ d au) := by
  cases hL : ledgerFind L i with
  | none =>
    cases hR : isOrderRemoval ⟨i, p, sz, t, OSide.undefined, fl⟩ with
    | false => simp [convertStep, hL, hR]
    | true => simp [convertStep, hL, hR]
  | some d =>
    have hds := hd d hL
    cases hR : isOrderRemoval ⟨i, p, sz, t, OSide.undefined, fl⟩ with
    | false => simp [convertStep, hL, hR, hds]
    | true => simp [convertStep, hL, hR, hds]

/-- Witness for claim C9: a removal of undefined-side order 7 leaves the bid
delta set untouched. -/
theorem claim_C9_witness :
    (∀ d, ledgerFind [(7, ⟨7, some 20, 3, 0, OSide.undefined⟩)] (7 : Int) = some d →
      d.side = OSide.undefined) ∧
    (convertStep ([⟨some 30, 2, 0⟩], [⟨some 25, 6, 0⟩], [(7, ⟨7, some 20, 3, 0, OSide.undefined⟩)])
        ⟨7, some 20, some 3, 1, OSide.undefined, true⟩).2.1 = [⟨some 25, 6, 0⟩] := by
  have hd : ∀ d, ledgerFind [(7, ⟨7, some 20, 3, 0, OSide.undefined⟩)] (7 : Int) = some d →
      d.side = OSide.undefined := by
    intro d h
    simp [ledgerFind] at h
    simp [← h]
  exact ⟨hd, (claim_C9_theorem [⟨some 30, 2, 0⟩] [⟨some 25, 6, 0⟩]
    [(7, ⟨7, some 20, 3, 0, OSide.undefined⟩)] 7 (some 20) (some 3) 1 true hd).1⟩

theorem priceSound_askLess : priceSound askLess := by
  intro a b h
  cases ha : a.price with
  | none =>
    cases hb : b.price with
    | none => simp [plEquivB, askLess, ha, hb] at h
    | some pb => simp [plEquivB, askLess, ha, hb] at h
  | some pa =>
    cases hb : b.price with
    | none => simp [plEquivB, askLess, ha, hb] at h
    | some pb =>
      simp only [plEquivB, askLess, ha, hb, Bool.and_eq_true, Bool.not_eq_true',
        decide_eq_false_iff_not, not_lt] at h
      exact congrArg some (le_antisymm h.2 h.1)

theorem priceSound_bidLess : priceSound bidLess := by
  intro a b h
  cases ha : a.price with
  | none =>
    cases hb : b.price with
    | none => rfl
    | some pb => simp [plEquivB, bidLess, ha, hb] at h
  | some pa =>
    cases hb : b.price with
    | none => simp [plEquivB, bidLess, ha, hb] at h
    | some pb =>
      simp only [plEquivB, bidLess, ha, hb, Bool.and_eq_true, Bool.not_eq_true',
        decide_eq_false_iff_not] at h
      exact congrArg some (le_antisymm (not_lt.1 h.1) (not_lt.1 h.2))

theorem selfEquiv_askLess : selfEquivOfEquiv askLess := by
  intro a b h
  cases ha : a.price with
  | none =>
    cases hb : b.price with
    | none => simp [plEquivB, askLess, ha, hb] at h
    | some pb => simp [plEquivB, askLess, ha, hb] at h
  | some pa => simp [plEquivB, askLess, ha]

theorem selfEquiv_bidLess : selfEquivOfEquiv bidLess := by
  intro a b h
  cases ha : a.price with
  | none =>
    cases hb : b.price with
    | none => simp [plEquivB, bidLess, ha, hb]
    | some pb => simp [plEquivB, bidLess, ha, hb] at h
  | some pa => simp [plEquivB, bidLess, ha]

theorem mem_setInsert {lt : PL → PL → Bool} {v x : PL} :
    ∀ {s : List PL}, x ∈ setInsert lt v s → x = v ∨ x ∈ s := by
  intro s
  induction s with
  | nil => intro h; simp [setInsert] at h; exact Or.inl h
  | cons a s ih =>
    intro h
    unfold setInsert at h
    by_cases h1 : lt v a = true
    · simp [h1] at h
      rcases h with h | h | h
      · exact Or.inl h
      · exact Or.inr (by simp [h])
      · exact Or.inr (by simp [h])
    · simp [h1] at h
      by_cases h2 : lt a v = true
      · simp [h2] at h
        rcases h with h | h
        · exact Or.inr (by simp [h])
        · rcases ih h with h3 | h3
          · exact Or.inl h3
          · exact Or.inr (by simp [h3])
      · simp [h2] at h
        rcases h with h | h
        · exact Or.inr (by simp [h])
        · exact Or.inr (by simp [h])

theorem setFind_mem {lt : PL → PL → Bool} {s : List PL} {k f : PL}
    (h : setFind lt s k = some f) : f ∈ s :=
  List.mem_of_find?_eq_some h

theorem setFind_equiv {lt : PL → PL → Bool} {s : List PL} {k f : PL}
    (h : setFind lt s k = some f) : plEquivB lt f k = true :=
  @List.find?_some PL (fun x => plEquivB lt x k) f s h

theorem setFind_isSome_of_mem {lt : PL → PL → Bool} {k x : PL} :
    ∀ {s : List PL}, x ∈ s → plEquivB lt x k = true → ∃ f, setFind lt s k = some f := by
  intro s
  induction s with
  | nil => intro h; simp at h
  | cons a s ih =>
    intro hx he
    unfold setFind List.find?
    by_cases ha : plEquivB lt a k = true
    · exact ⟨a, by simp [ha]⟩
    · rcases List.mem_cons.1 hx with h | h
      · exact absurd (h ▸ he) ha
      · obtain ⟨f, hf⟩ := ih h he
        exact ⟨f, by simpa [ha, setFind] using hf⟩

theorem mem_setErase {lt : PL → PL → Bool} {k x : PL} :
    ∀ {s : List PL}, x ∈ s → plEquivB lt x k = false → x ∈ setErase lt k s := by
  intro s
  induction s with
  | nil => intro h; simp at h
  | cons a s ih =>
    intro hx he
    unfold setErase
    rw [List.eraseP_cons]
    by_cases ha : plEquivB lt a k = true
    · simp [ha]
      rcases List.mem_cons.1 hx with h | h
      · exact absurd (h ▸ he) (by simp [ha])
      · exact h
    · simp [Bool.not_eq_true] at ha
      simp [ha]
      rcases List.mem_cons.1 hx with h | h
      · exact Or.inl h
      · exact Or.inr (ih h he)

theorem gen_acc (lt : PL → PL → Bool) (u : PL) (store : List PL)
    (acc : List PL × List PL × List PL) :
    generatePriceLevelChanges lt u store acc =
      (acc.1 ++ (generatePriceLevelChanges lt u store ([], [], [])).1,
       acc.2.1 ++ (generatePriceLevelChanges lt u store ([], [], [])).2.1,
       acc.2.2 ++ (generatePriceLevelChanges lt u store ([], [], [])).2.2) := by
  unfold generatePriceLevelChanges
  cases hf : setFind lt store u with
  | none => simp
  | some f =>
    by_cases hz : isZeroPriceLevel ⟨f.price, f.size + u.size, u.time⟩ = true
    · simp [hz]
    · simp [hz]

theorem categorize_foldl_acc (lt : PL → PL → Bool) (store : List PL) :
    ∀ (du : List PL) (acc : List PL × List PL × List PL),
      du.foldl (fun a u => generatePriceLevelChanges lt u store a) acc =
        (acc.1 ++ (categorizeSide lt store du).1,
         acc.2.1 ++ (categorizeSide lt store du).2.1,
         acc.2.2 ++ (categorizeSide lt store du).2.2) := by
  intro du
  induction du with
  | nil => intro acc; simp [categorizeSide]
  | cons u du ih =>
    intro acc
    have hcons : categorizeSide lt store (u :: du) =
        ((generatePriceLevelChanges lt u store ([], [], [])).1 ++ (categorizeSide lt store du).1,
         (generatePriceLevelChanges lt u store ([], [], [])).2.1 ++ (categorizeSide lt store du).2.1,
         (generatePriceLevelChanges lt u store ([], [], [])).2.2 ++ (categorizeSide lt store du).2.2) := by
      show (u :: du).foldl (fun a v => generatePriceLevelChanges lt v store a) ([], [], []) = _
      rw [List.foldl_cons, ih (generatePriceLevelChanges lt u store ([], [], []))]
    rw [List.foldl_cons, ih (generatePriceLevelChanges lt u store acc), hcons,
      gen_acc lt u store acc]
    simp [List.append_assoc]

theorem categorizeSide_cons (lt : PL → PL → Bool) (store : List PL) (u : PL) (du : List PL) :
    categorizeSide lt store (u :: du) =
      ((generatePriceLevelChanges lt u store ([], [], [])).1 ++ (categorizeSide lt store du).1,
       (generatePriceLevelChanges lt u store ([], [], [])).2.1 ++ (categorizeSide lt store du).2.1,
       (generatePriceLevelChanges lt u store ([], [], [])).2.2 ++ (categorizeSide lt store du).2.2) := by
  show (u :: du).foldl (fun a v => generatePriceLevelChanges lt v store a) ([], [], []) = _
  rw [List.foldl_cons, categorize_foldl_acc lt store du (generatePriceLevelChanges lt u store ([], [], []))]

theorem mentionsPrice_append {xs ys : List PL} {p : ℚ} :
    mentionsPrice (xs ++ ys) p ↔ mentionsPrice xs p ∨ mentionsPrice ys p := by
  unfold mentionsPrice
  constructor
  · rintro ⟨x, hx, hp⟩
    rcases List.mem_append.1 hx with h | h
    · exact Or.inl ⟨x, h, hp⟩
    · exact Or.inr ⟨x, h, hp⟩
  · rintro (⟨x, hx, hp⟩ | ⟨x, hx, hp⟩)
    · exact ⟨x, List.mem_append.2 (Or.inl hx), hp⟩
    · exact ⟨x, List.mem_append.2 (Or.inr hx), hp⟩

theorem mentionsPrice_cons {x : PL} {xs : List PL} {p : ℚ} :
    mentionsPrice (x :: xs) p ↔ x.price = some p ∨ mentionsPrice xs p := by
  unfold mentionsPrice
  constructor
  · rintro ⟨y, hy, hp⟩
    rcases List.mem_cons.1 hy with h | h
    · exact Or.inl (h ▸ hp)
    · exact Or.inr ⟨y, h, hp⟩
  · rintro (h | ⟨y, hy, hp⟩)
    · exact ⟨x, List.mem_cons_self x xs, h⟩
    · exact ⟨y, List.mem_cons_of_mem x hy, hp⟩

theorem gen_nil_cases (lt : PL → PL → Bool) (u : PL) (store : List PL) :
    (setFind lt store u = none ∧
      generatePriceLevelChanges lt u store ([], [], []) = ([u], [], [])) ∨
    (∃ f, setFind lt store u = some f ∧
      (generatePriceLevelChanges lt u store ([], [], []) = ([], [f], []) ∨
       generatePriceLevelChanges lt u store ([], [], []) =
         ([], [], [⟨f.price, f.size + u.size, u.time⟩]))) := by
  unfold generatePriceLevelChanges
  cases hf : setFind lt store u with
  | none => exact Or.inl ⟨rfl, by simp⟩
  | some f =>
    refine Or.inr ⟨f, rfl, ?_⟩
    by_cases hz : isZeroPriceLevel ⟨f.price, f.size + u.size, u.time⟩ = true
    · exact Or.inl (by simp [hz])
    · exact Or.inr (by simp [hz])

theorem cat_facts (lt : PL → PL → Bool) (hps : priceSound lt) (store : List PL) :
    ∀ du : List PL, du.Pairwise (fun a b => a.price ≠ b.price) →
      (∀ x ∈ (categorizeSide lt store du).1, x ∈ du) ∧
      (∀ x ∈ (categorizeSide lt store du).2.1,
        x ∈ store ∧ ∃ u ∈ du, plEquivB lt x u = true) ∧
      (∀ x ∈ (categorizeSide lt store du).2.2, ∃ u ∈ du, x.price = u.price) ∧
      (categorizeSide lt store du).2.1.Pairwise (fun a b => a.price ≠ b.price) ∧
      sideDisjoint (categorizeSide lt store du).1 (categorizeSide lt store du).2.2
        (categorizeSide lt store du).2.1 := by
  intro du
  induction du with
  | nil =>
    intro _
    refine ⟨by simp [categorizeSide], by simp [categorizeSide], by simp [categorizeSide],
      by simp [categorizeSide], ?_⟩
    intro p
    simp [categorizeSide, mentionsPrice]
  | cons u du ih =>
    intro hpw
    rw [List.pairwise_cons] at hpw
    obtain ⟨hph, hpt⟩ := hpw
    obtain ⟨f1, f2, f3, f4, f5⟩ := ih hpt
    rw [categorizeSide_cons]
    rcases gen_nil_cases lt u store with ⟨hf, hg⟩ | ⟨f, hf, hg | hg⟩
    · rw [hg]
      refine ⟨?_, ?_, ?_, ?_, ?_⟩
      · intro x hx
        rcases List.mem_append.1 hx with h | h
        · rcases List.mem_singleton.1 h with h
          exact h ▸ List.mem_cons_self u du
        · exact List.mem_cons_of_mem u (f1 x h)
      · intro x hx
        simp only [List.nil_append] at hx
        obtain ⟨hxs, v, hv, he⟩ := f2 x hx
        exact ⟨hxs, v, List.mem_cons_of_mem u hv, he⟩
      · intro x hx
        simp only [List.nil_append] at hx
        obtain ⟨v, hv, he⟩ := f3 x hx
        exact ⟨v, List.mem_cons_of_mem u hv, he⟩
      · simpa using f4
      · intro p
        refine ⟨?_, ?_, ?_⟩
        · rintro ⟨h1, h2⟩
          simp only [List.nil_append] at h2
          rcases (mentionsPrice_append.1 h1) with h1 | h1
          · obtain ⟨xu, hxu, hpu⟩ := h1
            rcases List.mem_singleton.1 hxu with rfl
            obtain ⟨y, hy, hpy⟩ := h2
            obtain ⟨v, hv, he⟩ := f3 y hy
            exact hph v hv (by rw [hpu, ← he, hpy])
          · exact (f5 p).1 ⟨h1, h2⟩
        · rintro ⟨h1, h2⟩
          simp only [List.nil_append] at h2
          rcases (mentionsPrice_append.1 h1) with h1 | h1
          · obtain ⟨xu, hxu, hpu⟩ := h1
            rcases List.mem_singleton.1 hxu with rfl
            obtain ⟨y, hy, hpy⟩ := h2
            obtain ⟨hys, v, hv, he⟩ := f2 y hy
            exact hph v hv (by rw [hpu, ← hps y v he, hpy])
          · exact (f5 p).2.1 ⟨h1, h2⟩
        · rintro ⟨h1, h2⟩
          simp only [List.nil_append] at h1 h2
          exact (f5 p).2.2 ⟨h1, h2⟩
    · have hfu : f.price = u.price := hps f u (setFind_equiv hf)
      rw [hg]
      refine ⟨?_, ?_, ?_, ?_, ?_⟩
      · intro x hx
        simp only [List.nil_append] at hx
        exact List.mem_cons_of_mem u (f1 x hx)
      · intro x hx
        rcases List.mem_append.1 hx with h | h
        · rcases List.mem_singleton.1 h with rfl
          exact ⟨setFind_mem hf, u, List.mem_cons_self u du, setFind_equiv hf⟩
        · obtain ⟨hxs, v, hv, he⟩ := f2 x h
          exact ⟨hxs, v, List.mem_cons_of_mem u hv, he⟩
      · intro x hx
        simp only [List.nil_append] at hx
        obtain ⟨v, hv, he⟩ := f3 x hx
        exact ⟨v, List.mem_cons_of_mem u hv, he⟩
      · rw [List.singleton_append, List.pairwise_cons]
        refine ⟨?_, f4⟩
        intro y hy heq
        obtain ⟨hys, v, hv, he⟩ := f2 y hy
        exact hph v hv (by rw [← hfu, heq, hps y v he])
      · intro p
        refine ⟨?_, ?_, ?_⟩
        · rintro ⟨h1, h2⟩
          simp only [List.nil_append] at h1 h2
          exact (f5 p).1 ⟨h1, h2⟩
        · rintro ⟨h1, h2⟩
          simp only [List.nil_append] at h1
          rcases (mentionsPrice_append.1 h2) with h2 | h2
          · obtain ⟨xf, hxf, hpf⟩ := h2
            rcases List.mem_singleton.1 hxf with rfl
            obtain ⟨y, hy, hpy⟩ := h1
            exact hph y (f1 y hy) (by rw [← hfu, hpf, hpy])
          · exact (f5 p).2.1 ⟨h1, h2⟩
        · rintro ⟨h1, h2⟩
          simp only [List.nil_append] at h1
          rcases (mentionsPrice_append.1 h2) with h2 | h2
          · obtain ⟨xf, hxf, hpf⟩ := h2
            rcases List.mem_singleton.1 hxf with rfl
            obtain ⟨y, hy, hpy⟩ := h1
            obtain ⟨v, hv, he⟩ := f3 y hy
            exact hph v hv (by rw [← he, hpy, ← hfu, hpf])
          · exact (f5 p).2.2 ⟨h1, h2⟩
    · have hfu : f.price = u.price := hps f u (setFind_equiv hf)
      rw [hg]
      refine ⟨?_, ?_, ?_, ?_, ?_⟩
      · intro x hx
        simp only [List.nil_append] at hx
        exact List.mem_cons_of_mem u (f1 x hx)
      · intro x hx
        simp only [List.nil_append] at hx
        obtain ⟨hxs, v, hv, he⟩ := f2 x hx
        exact ⟨hxs, v, List.mem_cons_of_mem u hv, he⟩
      · intro x hx
        rcases List.mem_append.1 hx with h | h
        · rcases List.mem_singleton.1 h with rfl
          exact ⟨u, List.mem_cons_self u du, hfu⟩
        · obtain ⟨v, hv, he⟩ := f3 x h
          exact ⟨v, List.mem_cons_of_mem u hv, he⟩
      · simpa using f4
      · intro p
        refine ⟨?_, ?_, ?_⟩
        · rintro ⟨h1, h2⟩
          simp only [List.nil_append] at h1
          rcases mentionsPrice_append.1 h2 with h2 | h2
          · obtain ⟨xn, hxn, hpn⟩ := h2
            rcases List.mem_singleton.1 hxn with rfl
            have hpn2 : f.price = some p := hpn
            obtain ⟨y, hy, hpy⟩ := h1
            exact hph y (f1 y hy) (by rw [← hfu, hpn2, hpy])
          · exact (f5 p).1 ⟨h1, h2⟩
        · rintro ⟨h1, h2⟩
          simp only [List.nil_append] at h1 h2
          exact (f5 p).2.1 ⟨h1, h2⟩
        · rintro ⟨h1, h2⟩
          simp only [List.nil_append] at h2
          rcases mentionsPrice_append.1 h1 with h1 | h1
          · obtain ⟨xn, hxn, hpn⟩ := h1
            rcases List.mem_singleton.1 hxn with rfl
            have hpn2 : f.price = some p := hpn
            obtain ⟨y, hy, hpy⟩ := h2
            obtain ⟨hys, v, hv, he⟩ := f2 y hy
            exact hph v hv (by rw [← hfu, hpn2, ← hps y v he, hpy])
          · exact (f5 p).2.2 ⟨h1, h2⟩

theorem processSideRemoval_cap0 (lt : PL → PL → Bool) (r : PL) (ss : SideState)
    (removals additions : List PL) (hne : ss.store.isEmpty = false) (f : PL)
    (hf : setFind lt ss.store r = some f) :
    processSideRemoval lt r ss removals additions 0 =
      some (⟨setErase lt r ss.store, (setErase lt r ss.store).length⟩,
        setInsert lt r removals, additions) := by
  unfold processSideRemoval
  simp [hne, hf]

theorem processSideAddition_cap0 (lt : PL → PL → Bool) (a : PL) (ss : SideState)
    (additions removals : List PL) :
    processSideAddition lt a ss additions removals 0 =
      some (⟨setInsert lt a ss.store, (setInsert lt a ss.store).length⟩,
        setInsert lt a additions, removals) := by
  unfold processSideAddition
  simp

theorem processSideUpdate_cap0 (lt : PL → PL → Bool) (u : PL) (ss : SideState)
    (updates : List PL) :
    processSideUpdate lt u ss updates 0 =
      (⟨setInsert lt u (setErase lt u ss.store), (setInsert lt u (setErase lt u ss.store)).length⟩,
        setInsert lt u updates) := by
  unfold processSideUpdate
  simp

theorem remLoop_cap0 (lt : PL → PL → Bool) (hps : priceSound lt) :
    ∀ (rems : List PL) (ss : SideState) (remSet addSet : List PL),
      (∀ x ∈ rems, x ∈ ss.store) →
      rems.Pairwise (fun a b => a.price ≠ b.price) →
      (∀ x ∈ rems, plEquivB lt x x = true) →
      ∃ ss2 remSet2,
        rems.foldlM (fun (acc : SideState × List PL × List PL) r =>
            processSideRemoval lt r acc.1 acc.2.1 acc.2.2 0) (ss, remSet, addSet)
          = some (ss2, remSet2, addSet) ∧
        ∀ x ∈ remSet2, x ∈ remSet ∨ x ∈ rems := by
  intro rems
  induction rems with
  | nil =>
    intro ss remSet addSet _ _ _
    exact ⟨ss, remSet, by simp, fun x hx => Or.inl hx⟩
  | cons r rems ih =>
    intro ss remSet addSet hmem hpw hsee
    have hr : r ∈ ss.store := hmem r (List.mem_cons_self r rems)
    have hne : ss.store.isEmpty = false := by
      cases hs : ss.store with
      | nil => rw [hs] at hr; simp at hr
      | cons a l => rfl
    obtain ⟨f, hf⟩ := setFind_isSome_of_mem hr (hsee r (List.mem_cons_self r rems))
    rw [List.pairwise_cons] at hpw
    obtain ⟨hph, hpt⟩ := hpw
    have hmem2 : ∀ x ∈ rems, x ∈ setErase lt r ss.store := by
      intro x hx
      refine mem_setErase (hmem x (List.mem_cons_of_mem r hx)) ?_
      by_contra hc
      rw [Bool.not_eq_false] at hc
      exact hph x hx (hps x r hc).symm
    obtain ⟨ss2, remSet2, heq, hsub⟩ :=
      ih ⟨setErase lt r ss.store, (setErase lt r ss.store).length⟩ (setInsert lt r remSet)
        addSet hmem2 hpt (fun x hx => hsee x (List.mem_cons_of_mem r hx))
    refine ⟨ss2, remSet2, ?_, ?_⟩
    · rw [List.foldlM_cons]
      show (processSideRemoval lt r ss remSet addSet 0 >>= fun acc2 =>
        rems.foldlM _ acc2) = _
      rw [processSideRemoval_cap0 lt r ss remSet addSet hne f hf]
      simpa using heq
    · intro x hx
      rcases hsub x hx with h | h
      · rcases mem_setInsert h with h2 | h2
        · exact Or.inr (by rw [h2]; exact List.mem_cons_self r rems)
        · exact Or.inl h2
      · exact Or.inr (List.mem_cons_of_mem r h)

theorem addLoop_cap0 (lt : PL → PL → Bool) :
    ∀ (adds : List PL) (ss : SideState) (remSet addSet : List PL),
      ∃ ss2 addSet2,
        adds.foldlM (fun (acc : SideState × List PL × List PL) a => do
            let t ← processSideAddition lt a acc.1 acc.2.2 acc.2.1 0
            some (t.1, t.2.2, t.2.1)) (ss, remSet, addSet)
          = some (ss2, remSet, addSet2) ∧
        ∀ x ∈ addSet2, x ∈ addSet ∨ x ∈ adds := by
  intro adds
  induction adds with
  | nil =>
    intro ss remSet addSet
    exact ⟨ss, addSet, by simp, fun x hx => Or.inl hx⟩
  | cons a adds ih =>
    intro ss remSet addSet
    obtain ⟨ss2, addSet2, heq, hsub⟩ :=
      ih ⟨setInsert lt a ss.store, (setInsert lt a ss.store).length⟩ remSet
        (setInsert lt a addSet)
    refine ⟨ss2, addSet2, ?_, ?_⟩
    · rw [List.foldlM_cons]
      show ((do
          let t ← processSideAddition lt a ss addSet remSet 0
          some (t.1, t.2.2, t.2.1)) >>= fun acc2 => adds.foldlM _ acc2) = _
      rw [processSideAddition_cap0 lt a ss addSet remSet]
      simpa using heq
    · intro x hx
      rcases hsub x hx with h | h
      · rcases mem_setInsert h with h2 | h2
        · exact Or.inr (by rw [h2]; exact List.mem_cons_self a adds)
        · exact Or.inl h2
      · exact Or.inr (List.mem_cons_of_mem a h)

theorem updLoop_cap0 (lt : PL → PL → Bool) :
    ∀ (upds : List PL) (ss : SideState) (updSet : List PL),
      ∀ x ∈ (upds.foldl (fun (acc : SideState × List PL) u =>
          processSideUpdate lt u acc.1 acc.2 0) (ss, updSet)).2,
        x ∈ updSet ∨ x ∈ upds := by
  intro upds
  induction upds with
  | nil => intro ss updSet x hx; exact Or.inl hx
  | cons u upds ih =>
    intro ss updSet x hx
    rw [List.foldl_cons, processSideUpdate_cap0] at hx
    rcases ih _ _ x hx with h | h
    · rcases mem_setInsert h with h2 | h2
      · exact Or.inr (by rw [h2]; exact List.mem_cons_self u upds)
      · exact Or.inl h2
    · exact Or.inr (List.mem_cons_of_mem u h)

theorem applySide_cap0 (lt : PL → PL → Bool) (hps : priceSound lt)
    (hse : selfEquivOfEquiv lt) (ss0 : SideState) (du : List PL)
    (hdu : du.Pairwise (fun a b => a.price ≠ b.price)) :
    ∃ r, applySide lt ss0 du 0 = some r ∧ sideDisjoint r.2.1 r.2.2.1 r.2.2.2 := by
  obtain ⟨f1, f2, f3, f4, f5⟩ := cat_facts lt hps ss0.store du hdu
  have hmem : ∀ x ∈ (categorizeSide lt ss0.store du).2.1, x ∈ ss0.store :=
    fun x hx => (f2 x hx).1
  have hsee : ∀ x ∈ (categorizeSide lt ss0.store du).2.1, plEquivB lt x x = true := by
    intro x hx
    obtain ⟨_, v, _, he⟩ := f2 x hx
    exact hse x v he
  obtain ⟨ssR, remSet, hR, hRsub⟩ :=
    remLoop_cap0 lt hps (categorizeSide lt ss0.store du).2.1 ss0 [] [] hmem f4 hsee
  obtain ⟨ssA, addSet, hA, hAsub⟩ :=
    addLoop_cap0 lt (categorizeSide lt ss0.store du).1 ssR remSet []
  refine ⟨(((categorizeSide lt ss0.store du).2.2.foldl
      (fun (acc : SideState × List PL) u => processSideUpdate lt u acc.1 acc.2 0)
      (ssA, [])).1, addSet,
      ((categorizeSide lt ss0.store du).2.2.foldl
      (fun (acc : SideState × List PL) u => processSideUpdate lt u acc.1 acc.2 0)
      (ssA, [])).2, remSet), ?_, ?_⟩
  · unfold applySide
    simp only [Option.bind_eq_bind, Option.some_bind, hR]
    simp only [Option.bind_eq_bind] at hA
    rw [hA]
    simp only [Option.some_bind]
  · intro p
    have tA : mentionsPrice addSet p → mentionsPrice (categorizeSide lt ss0.store du).1 p := by
      rintro ⟨x, hx, hp⟩
      rcases hAsub x hx with h | h
      · simp at h
      · exact ⟨x, h, hp⟩
    have tR : mentionsPrice remSet p → mentionsPrice (categorizeSide lt ss0.store du).2.1 p := by
      rintro ⟨x, hx, hp⟩
      rcases hRsub x hx with h | h
      · simp at h
      · exact ⟨x, h, hp⟩
    have tU : mentionsPrice ((categorizeSide lt ss0.store du).2.2.foldl
        (fun (acc : SideState × List PL) u => processSideUpdate lt u acc.1 acc.2 0)
        (ssA, [])).2 p → mentionsPrice (categorizeSide lt ss0.store du).2.2 p := by
      rintro ⟨x, hx, hp⟩
      rcases updLoop_cap0 lt (categorizeSide lt ss0.store du).2.2 ssA [] x hx with h | h
      · simp at h
      · exact ⟨x, h, hp⟩
    exact ⟨fun ⟨h1, h2⟩ => (f5 p).1 ⟨tA h1, tU h2⟩,
      fun ⟨h1, h2⟩ => (f5 p).2.1 ⟨tA h1, tR h2⟩,
      fun ⟨h1, h2⟩ => (f5 p).2.2 ⟨tU h1, tR h2⟩⟩

/-- Claim C7 (amended): in a cap=0 processing cycle each price occurs in at
most one of the three emitted change lists per side (with cap>0, a level
evicted or promoted by the window-shifting logic may additionally appear in
the updates list, as the counterexample shows). -/
theorem claim_C7_amended_theorem (b : Book) (du : Changes)
    (hcap : b.cap = 0)
    (hA : du.asks.Pairwise (fun x y => x.price ≠ y.price))
    (hB : du.bids.Pairwise (fun x y => x.price ≠ y.price)) :
    ∃ r, applyUpdates b du = some r ∧
      sideDisjoint r.2.additions.asks r.2.updates.asks r.2.removals.asks ∧
      sideDisjoint r.2.additions.bids r.2.updates.bids r.2.removals.bids := by
  obtain ⟨ra, hra, hda⟩ :=
    applySide_cap0 askLess priceSound_askLess selfEquiv_askLess ⟨b.asks, b.lastAsk⟩ du.asks hA
  obtain ⟨rb, hrb, hdb⟩ :=
    applySide_cap0 bidLess priceSound_bidLess selfEquiv_bidLess ⟨b.bids, b.lastBid⟩ du.bids hB
  refine ⟨(⟨ra.1.store, ra.1.last, rb.1.store, rb.1.last, b.ledger, b.cap⟩,
    ⟨⟨ra.2.1, rb.2.1⟩, ⟨ra.2.2.1, rb.2.2.1⟩, ⟨ra.2.2.2, rb.2.2.2⟩⟩), ?_, hda, hdb⟩
  unfold applyUpdates
  rw [hcap]
  simp only [Option.bind_eq_bind, hra, Option.some_bind, hrb]

/-- Witness for the amended claim C7: a concrete cap-0 cycle. -/
theorem claim_C7_amended_witness :
    ((⟨[], 0, [], 0, [], 0⟩ : Book).cap = 0 ∧
      ([⟨some 10, 5, 0⟩] : List PL).Pairwise (fun x y => x.price ≠ y.price) ∧
      ([] : List PL).Pairwise (fun x y => x.price ≠ y.price)) ∧
    (∃ r, applyUpdates ⟨[], 0, [], 0, [], 0⟩ ⟨[⟨some 10, 5, 0⟩], []⟩ = some r ∧
      sideDisjoint r.2.additions.asks r.2.updates.asks r.2.removals.asks ∧
      sideDisjoint r.2.additions.bids r.2.updates.bids r.2.removals.bids) := by
  refine ⟨⟨rfl, by simp, by simp⟩, ?_⟩
  exact claim_C7_amended_theorem ⟨[], 0, [], 0, [], 0⟩ ⟨[⟨some 10, 5, 0⟩], []⟩ rfl
    (by simp) (by simp)
